import Mathlib

/-
Verification of the master coordinator of a chunk-based distributed file
store (src/master.py) against its natural-language specification.

The `Master` class in src/master.py is embedded faithfully as pure state
transformers over `MasterState`.  The `NamespaceManager`, `ChunkManager`
and metadata/oplog persistence layer live in modules that are not part of
the sources (master/namespace_manager.py, master/chunk_manager.py,
commons/metadata_manager.py, commons/settings.py); those are modelled from
the specification's contracts (sections 4.1, 4.2, 4.3 of the spec), each
such definition carrying a `Modelled from the spec:` doc comment.
-/

namespace GfsMaster

/-- Modelled from the spec: `CHUNK_SIZE` comes from commons/settings.py,
which is not in the sources; the concrete value is a stand-in constant,
every theorem below holds for the formula `CHUNK_SIZE * index + length`
symbolically. -/
def CHUNK_SIZE : Nat := 64

/-- Modelled from the spec: fixed lease duration (section 4.2, `findLeaseHolder`
grants `now + fixed lease duration`); the concrete value is a stand-in. -/
def LEASE_DURATION : Nat := 60

/-- Modelled from the spec: configured replication factor (section 4.2,
`addChunk` selects an intended location set of this size); stand-in value. -/
def REPLICATION_FACTOR : Nat := 3

/-- Modelled from the spec: liveness window for chunkserver records
(section 3, Chunkserver Record: live iff last-heartbeat within the window);
stand-in value. -/
def LIVENESS_WINDOW : Nat := 30

/-- Error taxonomy of section 7 of the spec. -/
inductive Err
  | NotFound
  | AlreadyExists
  | InvalidPath
  | DuplicateChunk
  | NoReplicasAvailable
  deriving DecidableEq, Repr

/-- Oplog action kinds, mirroring `OplogActions` as used in src/master.py. -/
inductive OplogAction
  | GRANT_CLIENT_ID
  | CREATE_FILE
  | CREATE_DIR
  | DELETE_FILE
  | ADD_CHUNK
  | NOTIFY_MASTER
  deriving DecidableEq, Repr

/-- Payloads that src/master.py passes to `update_metadata`. -/
inductive Payload
  | natP (n : Nat)
  | strP (s : String)
  | addChunkP (path : String) (chunk_index : Nat) (h1 : Nat)
      (locs : List String) (h2 : Nat)
  deriving DecidableEq, Repr

/-- One durable oplog entry: action kind plus payload. -/
structure OplogEntry where
  action : OplogAction
  payload : Payload
  deriving DecidableEq, Repr

/-- Modelled from the spec: a Namespace Node (section 3) — kind
(directory or file), byte length (files), and a tombstone marker. -/
structure NsNode where
  isDir : Bool
  len : Nat
  tombstone : Bool
  deriving DecidableEq, Repr

/-- Namespace state: an association list from path segments to nodes.
The namespace tree of the Namespace Manager, keyed by the full segment
list of each node's path. -/
abbrev NsState := List (List String × NsNode)

/-- Split a list of characters on the slash character. -/
def splitOnSlash : List Char → List (List Char)
  | [] => [[]]
  | c :: rest =>
    let r := splitOnSlash rest
    if c = '/' then [] :: r
    else
      match r with
      | [] => [[c]]
      | s :: ss => (c :: s) :: ss

/-- Path segments of a path string: split on slashes, drop empty segments. -/
def segsOf (p : String) : List String :=
  ((splitOnSlash p.data).filter (fun s => s ≠ [])).map List.asString

/-- Resolve a segment key to its node: first matching, non-tombstoned entry
(tombstoned nodes are removed from future resolution per section 4.1). -/
def nsResolve (ns : NsState) (key : List String) : Option NsNode :=
  (ns.find? (fun e => e.1 == key && !e.2.tombstone)).map Prod.snd

/-- Proper prefixes of a segment list (all ancestors of a path). -/
def properPre : List String → List (List String)
  | [] => []
  | s :: rest => [] :: (properPre rest).map (fun p => s :: p)

/-- Every ancestor of the key resolves to a live directory. -/
def parentsOk (ns : NsState) (key : List String) : Bool :=
  (properPre key).all (fun p =>
    match nsResolve ns p with
    | some n => n.isDir
    | none => false)

/-- Modelled from the spec: `create` / `createDir` of the Namespace Manager
(section 4.1): `AlreadyExists` if a node at the path exists, `InvalidPath`
if a parent component is missing or is a file, otherwise insert a node of
the given kind with length 0. -/
def nsCreateNode (ns : NsState) (path : String) (dir : Bool) :
    (Bool × Option Err) × NsState :=
  let segs := segsOf path
  match nsResolve ns segs with
  | some _ => ((false, some .AlreadyExists), ns)
  | none =>
    if parentsOk ns segs then
      ((true, none), (segs, ⟨dir, 0, false⟩) :: ns)
    else
      ((false, some .InvalidPath), ns)

/-- Modelled from the spec: `delete` of the Namespace Manager (section 4.1):
`NotFound` if absent, otherwise the node and, for a directory, its whole
subtree are marked tombstoned (not physically removed). -/
def nsDelete (ns : NsState) (path : String) : Option Err × NsState :=
  let segs := segsOf path
  match nsResolve ns segs with
  | none => (some .NotFound, ns)
  | some _ =>
    (none, ns.map (fun e =>
      if segs.isPrefixOf e.1 then (e.1, { e.2 with tombstone := true }) else e))

/-- Modelled from the spec: `getFileLength` of the Namespace Manager
(section 4.1): `NotFound` if absent or tombstoned, else the recorded
byte length. -/
def nsGetFileLength (ns : NsState) (path : String) : Option Nat × Option Err :=
  match nsResolve ns (segsOf path) with
  | none => (none, some .NotFound)
  | some n => (some n.len, none)

/-- Update function applied to each namespace entry by `nsSetFileLength`. -/
def setLenFun (segs : List String) (v : Nat) (e : List String × NsNode) :
    List String × NsNode :=
  if e.1 == segs && !e.2.tombstone then (e.1, { e.2 with len := max e.2.len v })
  else e

/-- Modelled from the spec: `setFileLength` of the Namespace Manager
(section 4.1): `NotFound` if absent or tombstoned; otherwise a
monotonic-max update of the recorded length. -/
def nsSetFileLength (ns : NsState) (path : String) (v : Nat) :
    Option Err × NsState :=
  let segs := segsOf path
  match nsResolve ns segs with
  | none => (some .NotFound, ns)
  | some _ => (none, ns.map (setLenFun segs v))

/-- A lease: primary location and expiration timestamp (section 3). -/
structure Lease where
  primary : String
  expiration : Nat
  deriving DecidableEq, Repr

/-- A (path, chunk index) pair, as returned by `get_path_index_from_handle`. -/
structure PathIndex where
  path : String
  index : Nat
  deriving DecidableEq, Repr

/-- Chunk info returned by `add_chunk`: handle plus intended locations. -/
structure ChunkInfo where
  chunk_handle : Nat
  chunk_locations : List String
  deriving DecidableEq, Repr

/-- Modelled from the spec: the Chunk Manager's state (section 4.2) —
the (path, index) → handle map, the next handle to allocate, confirmed
replica locations per handle, leases, the deferred chunk-deletion queue,
and chunkserver records (address, last heartbeat). -/
structure CmState where
  chunks : List (PathIndex × Nat)
  next_handle : Nat
  locations : List (Nat × List String)
  leases : List (Nat × Lease)
  delete_queue : List Nat
  chunkservers : List (String × Nat)
  deriving DecidableEq, Repr

/-- Registered chunkservers whose last heartbeat is within the liveness
window at time `now`. -/
def liveServers (cm : CmState) (now : Nat) : List String :=
  (cm.chunkservers.filter (fun e => now ≤ e.2 + LIVENESS_WINDOW)).map Prod.fst

/-- A handle is known to the chunk manager iff some (path, index) maps to it. -/
def cmKnows (cm : CmState) (h : Nat) : Bool :=
  (cm.chunks.find? (fun e => e.2 == h)).isSome

/-- Modelled from the spec: `addChunk` of the Chunk Manager (section 4.2):
`DuplicateChunk` if (path, index) already has a handle; otherwise allocate
a fresh globally unique handle, select an intended location set of size
`REPLICATION_FACTOR` among live chunkservers, and record the mapping. -/
def cmAddChunk (cm : CmState) (path : String) (index : Nat) (now : Nat) :
    (Option ChunkInfo × Option Err) × CmState :=
  match cm.chunks.find? (fun e => e.1 == PathIndex.mk path index) with
  | some _ => ((none, some .DuplicateChunk), cm)
  | none =>
    let h := cm.next_handle
    let locs := (liveServers cm now).take REPLICATION_FACTOR
    ((some ⟨h, locs⟩, none),
      { cm with chunks := (⟨path, index⟩, h) :: cm.chunks,
                next_handle := h + 1 })

/-- Modelled from the spec: `getPathIndexFromHandle` of the Chunk Manager
(section 4.2): reverse lookup, `NotFound` if the handle is unrecognized
(e.g. already garbage-collected). -/
def cmGetPathIndexFromHandle (cm : CmState) (h : Nat) :
    Option PathIndex × Option Err :=
  match cm.chunks.find? (fun e => e.2 == h) with
  | some e => (some e.1, none)
  | none => (none, some .NotFound)

/-- Modelled from the spec: `setChunkLocation` of the Chunk Manager
(section 4.2): idempotent add of a server to the confirmed location set;
unknown handles are ignored. -/
def cmSetChunkLocation (cm : CmState) (h : Nat) (addr : String) : CmState :=
  if cmKnows cm h then
    match cm.locations.find? (fun e => e.1 == h) with
    | some e =>
      if e.2.contains addr then cm
      else { cm with locations :=
        cm.locations.map (fun l => if l.1 == h then (l.1, addr :: l.2) else l) }
    | none => { cm with locations := (h, [addr]) :: cm.locations }
  else cm

/-- Modelled from the spec: `updateDeleteChunkList` of the Chunk Manager
(section 4.2): enqueues every chunk handle currently owned by the path for
deferred garbage collection. -/
def cmUpdateDeleteChunkList (cm : CmState) (path : String) : CmState :=
  { cm with delete_queue :=
      cm.delete_queue ++
        (cm.chunks.filter (fun e => e.1.path == path)).map Prod.snd }

/-- Confirmed locations recorded for a handle (empty if none reported). -/
def confirmedLocations (cm : CmState) (h : Nat) : List String :=
  match cm.locations.find? (fun e => e.1 == h) with
  | some e => e.2
  | none => []

/-- Modelled from the spec: primary election inside `findLeaseHolder`
(section 4.2): among the confirmed, currently-live replica locations,
deterministically pick one (the head of the candidate list) as primary and
grant a lease expiring at `now + LEASE_DURATION`; `NoReplicasAvailable`
if there is no live confirmed replica. -/
def cmElect (cm : CmState) (h : Nat) (now : Nat) :
    (Option Lease × Option Err) × CmState :=
  let cands := (confirmedLocations cm h).filter
    (fun a => (liveServers cm now).contains a)
  match cands with
  | [] => ((none, some .NoReplicasAvailable), cm)
  | c :: _ =>
    let L : Lease := ⟨c, now + LEASE_DURATION⟩
    ((some L, none),
      { cm with leases := (h, L) :: cm.leases.filter (fun e => e.1 != h) })

/-- Modelled from the spec: `findLeaseHolder` of the Chunk Manager
(section 4.2): `NotFound` if the handle is unknown; if a non-expired lease
exists it is returned unchanged; otherwise primary election is performed. -/
def cmFindLeaseHolder (cm : CmState) (h : Nat) (now : Nat) :
    (Option Lease × Option Err) × CmState :=
  if cmKnows cm h then
    match cm.leases.find? (fun e => e.1 == h) with
    | some e =>
      if now < e.2.expiration then ((some e.2, none), cm)
      else cmElect cm h now
    | none => cmElect cm h now
  else ((none, some .NotFound), cm)

/-- Modelled from the spec: `updateChunkserverList` of the Chunk Manager
(section 4.2): registers a chunkserver or refreshes its last-heartbeat. -/
def cmUpdateChunkserverList (cm : CmState) (addr : String) (now : Nat) :
    CmState :=
  match cm.chunkservers.find? (fun e => e.1 == addr) with
  | some _ => { cm with chunkservers :=
      cm.chunkservers.map (fun e => if e.1 == addr then (e.1, now) else e) }
  | none => { cm with chunkservers := (addr, now) :: cm.chunkservers }

/-- The master's state: client-id counter, the oplog (the in-order record
of entries `update_metadata` has durably appended), and the two managers.
Mirrors the `Master` class fields of src/master.py. -/
structure MasterState where
  client_id : Nat
  oplog : List OplogEntry
  ns : NsState
  cm : CmState
  deriving DecidableEq, Repr

/-- A freshly constructed master (`Master.__init__`): counter 0, empty log,
fresh managers (the namespace holds only the root directory). -/
def initMaster : MasterState :=
  { client_id := 0
    oplog := []
    ns := [([], ⟨true, 0, false⟩)]
    cm := { chunks := [], next_handle := 0, locations := [], leases := [],
            delete_queue := [], chunkservers := [] } }

/-- Embedding of `Master.unique_client_id` (src/master.py lines 34-47):
increment the counter, append a GRANT_CLIENT_ID oplog entry carrying the
granted id, return the id.  In the returned pair the state already
contains the appended entry: the append happens before the return. -/
def unique_client_id (s : MasterState) : Nat × MasterState :=
  let cid := s.client_id + 1
  (cid, { s with client_id := cid,
                 oplog := s.oplog ++ [⟨.GRANT_CLIENT_ID, .natP cid⟩] })

/-- Embedding of `Master.create` (src/master.py lines 49-62): run the
namespace create; append a CREATE_FILE entry iff it reported no error. -/
def create (s : MasterState) (path : String) :
    (Bool × Option Err) × MasterState :=
  let r := nsCreateNode s.ns path false
  match r.1.2 with
  | none => ((r.1.1, none),
      { s with ns := r.2, oplog := s.oplog ++ [⟨.CREATE_FILE, .strP path⟩] })
  | some e => ((r.1.1, some e), { s with ns := r.2 })

/-- Embedding of `Master.create_dir` (src/master.py lines 149-156). -/
def create_dir (s : MasterState) (path : String) :
    (Bool × Option Err) × MasterState :=
  let r := nsCreateNode s.ns path true
  match r.1.2 with
  | none => ((r.1.1, none),
      { s with ns := r.2, oplog := s.oplog ++ [⟨.CREATE_DIR, .strP path⟩] })
  | some e => ((r.1.1, some e), { s with ns := r.2 })

/-- Embedding of `Master.add_chunk` (src/master.py lines 64-80): on chunk
manager error return (None, None, err); on success append an ADD_CHUNK
entry whose payload tuple is
(path, chunk_index, chunk_handle, chunk_locations, chunk_handle) — the
handle appears twice, exactly as in line 78 of the source — and return
the handle and intended locations. -/
def add_chunk (s : MasterState) (path : String) (index : Nat) (now : Nat) :
    (Option Nat × Option (List String) × Option Err) × MasterState :=
  let r := cmAddChunk s.cm path index now
  match r.1.2, r.1.1 with
  | some e, _ => ((none, none, some e), { s with cm := r.2 })
  | none, some info =>
      ((some info.chunk_handle, some info.chunk_locations, none),
        { s with cm := r.2,
                 oplog := s.oplog ++ [⟨.ADD_CHUNK,
                   .addChunkP path index info.chunk_handle
                     info.chunk_locations info.chunk_handle⟩] })
  | none, none => ((none, none, none), { s with cm := r.2 })

/-- Embedding of `Master.delete` (src/master.py lines 164-173): first the
chunk manager enqueues the path's handles for deferred deletion, then the
namespace delete runs; a DELETE_FILE entry is appended iff it succeeded. -/
def delete (s : MasterState) (path : String) : Option Err × MasterState :=
  let cm1 := cmUpdateDeleteChunkList s.cm path
  let r := nsDelete s.ns path
  match r.1 with
  | none =>
    (none, { s with cm := cm1, ns := r.2,
                    oplog := s.oplog ++ [⟨.DELETE_FILE, .strP path⟩] })
  | some e => (some e, { s with cm := cm1, ns := r.2 })

/-- Embedding of `Master.find_lease_holder` (src/master.py lines 94-107):
on chunk manager error return (None, None, err), else the lease's primary
and expiration. -/
def find_lease_holder (s : MasterState) (h : Nat) (now : Nat) :
    (Option String × Option Nat × Option Err) × MasterState :=
  let r := cmFindLeaseHolder s.cm h now
  match r.1.2, r.1.1 with
  | some e, _ => ((none, none, some e), { s with cm := r.2 })
  | none, some L => ((some L.primary, some L.expiration, none),
      { s with cm := r.2 })
  | none, none => ((none, none, none), { s with cm := r.2 })

/-- The Python return value shapes of `Master.report_chunk`: the failure
path executes `return None, err` (a two-tuple) while the success path
executes `return None` (a bare single value). -/
inductive ReportRet
  | pairRet (v : Option Nat) (err : Err)
  | noneRet
  deriving DecidableEq, Repr

/-- How a `report_chunk` call terminates: a normal return, an
AssertionError raised by the `assert` at line 130, or a TypeError raised
by comparing an integer against None at line 144 (when
`get_file_length` failed and its error was ignored at line 135). -/
inductive ReportOutcome
  | ret (r : ReportRet)
  | assertError
  | typeError
  deriving DecidableEq, Repr

/-- Embedding of `Master.report_chunk` (src/master.py lines 109-147):
resolve the handle to its (path, index); on error return the pair
(None, err); assert the stored index equals the reported one (raising
stops execution with the state mutated so far); record the confirmed
location; read the file length (error ignored — if it failed the
comparison at line 144 raises TypeError); bump the length monotonically
when the newly computed length exceeds it; return a bare None. -/
def report_chunk (s : MasterState) (server : String)
    (chunk_handle chunk_index len : Nat) (path : String) :
    ReportOutcome × MasterState :=
  match cmGetPathIndexFromHandle s.cm chunk_handle with
  | (_, some e) => (.ret (.pairRet none e), s)
  | (some pi, none) =>
    if pi.index = chunk_index then
      let cm1 := cmSetChunkLocation s.cm chunk_handle server
      let s1 := { s with cm := cm1 }
      match nsGetFileLength s1.ns pi.path with
      | (none, _) => (.typeError, s1)
      | (some file_length, _) =>
        let new_length := CHUNK_SIZE * pi.index + len
        if file_length < new_length then
          (.ret .noneRet, { s1 with ns := (nsSetFileLength s1.ns pi.path new_length).2 })
        else (.ret .noneRet, s1)
    else (.assertError, s)
  | (none, none) => (.ret .noneRet, s)

/-- Embedding of `Master.notify_master` (src/master.py lines 181-196):
register/refresh the chunkserver, record each reported handle's location,
then append a NOTIFY_MASTER oplog entry. -/
def notify_master (s : MasterState) (addr : String) (handles : List Nat)
    (now : Nat) : MasterState :=
  let cm1 := cmUpdateChunkserverList s.cm addr now
  let cm2 := handles.foldl (fun c h => cmSetChunkLocation c h addr) cm1
  { s with cm := cm2, oplog := s.oplog ++ [⟨.NOTIFY_MASTER, .strP addr⟩] }

/-- The recorded file length visible for a path (None when the path does
not resolve). -/
def recordedLen (s : MasterState) (path : String) : Option Nat :=
  (nsGetFileLength s.ns path).1

/-- A first-component-some result of `nsGetFileLength` determines the whole
pair: the error component is then none. -/
lemma nsGetFileLength_fst_some {ns : NsState} {p : String} {L : Nat}
    (hl : (nsGetFileLength ns p).1 = some L) :
    nsGetFileLength ns p = (some L, none) := by
  cases hres : nsResolve ns (segsOf p) with
  | none => simp [nsGetFileLength, hres] at hl
  | some n =>
    simp [nsGetFileLength, hres] at hl ⊢
    exact hl

/-- C8: `unique_client_id` is strictly monotonic and durable — it returns
the previous counter plus one, the new counter equals the returned id,
the returned state already carries an appended GRANT_CLIENT_ID oplog entry
holding the granted id (the append happens before the return), and a
second call returns a strictly larger id. -/
theorem c8_unique_client_id_monotonic_durable (s : MasterState) :
    (unique_client_id s).1 = s.client_id + 1
    ∧ (unique_client_id s).2.client_id = s.client_id + 1
    ∧ (unique_client_id s).2.oplog
        = s.oplog ++ [⟨.GRANT_CLIENT_ID, .natP (s.client_id + 1)⟩]
    ∧ (unique_client_id ((unique_client_id s).2)).1 = (unique_client_id s).1 + 1
    ∧ s.client_id < (unique_client_id s).1 := by
  refine ⟨rfl, rfl, rfl, rfl, ?_⟩
  simp [unique_client_id]

/-- C9: every successful `add_chunk` appends an ADD_CHUNK oplog entry whose
payload is (path, chunk_index, handle, locations, handle) — the chunk
handle appears twice in the logged tuple. -/
theorem c9_add_chunk_payload_handle_twice (s : MasterState) (path : String)
    (index now : Nat)
    (hs : (add_chunk s path index now).1.2.2 = none) :
    ∃ h locs,
      (add_chunk s path index now).1.1 = some h
      ∧ (add_chunk s path index now).1.2.1 = some locs
      ∧ (add_chunk s path index now).2.oplog
          = s.oplog ++ [⟨.ADD_CHUNK, .addChunkP path index h locs h⟩] := by
  cases hf : s.cm.chunks.find? (fun e => e.1 == PathIndex.mk path index) with
  | some e => simp [add_chunk, cmAddChunk, hf] at hs
  | none =>
      refine ⟨s.cm.next_handle, (liveServers s.cm now).take REPLICATION_FACTOR,
        ?_, ?_, ?_⟩ <;> simp [add_chunk, cmAddChunk, hf]

/-- Witness for C9: on a fresh master, `add_chunk` succeeds and logs the
handle twice. -/
theorem c9_witness :
    (add_chunk initMaster "/f" 0 0).1.2.2 = none
    ∧ ∃ h locs,
        (add_chunk initMaster "/f" 0 0).1.1 = some h
        ∧ (add_chunk initMaster "/f" 0 0).1.2.1 = some locs
        ∧ (add_chunk initMaster "/f" 0 0).2.oplog
            = initMaster.oplog ++ [⟨.ADD_CHUNK, .addChunkP "/f" 0 h locs h⟩] :=
  ⟨rfl, c9_add_chunk_payload_handle_twice initMaster "/f" 0 0 rfl⟩

/-- C3: once `add_chunk(path, index)` has succeeded, a second call with the
same pair returns (None, None, DuplicateChunk) and leaves the state — in
particular the next handle, the chunk map and the oplog — exactly as it
was after the first call: no second handle, no second ADD_CHUNK entry. -/
theorem c3_add_chunk_duplicate (s : MasterState) (p : String)
    (i now1 now2 : Nat)
    (hs : (add_chunk s p i now1).1.2.2 = none) :
    (add_chunk (add_chunk s p i now1).2 p i now2).1
        = (none, none, some .DuplicateChunk)
    ∧ (add_chunk (add_chunk s p i now1).2 p i now2).2
        = (add_chunk s p i now1).2 := by
  cases hf : s.cm.chunks.find? (fun e => e.1 == PathIndex.mk p i) with
  | some e => simp [add_chunk, cmAddChunk, hf] at hs
  | none => constructor <;> simp [add_chunk, cmAddChunk, hf]

/-- Witness for C3: on a fresh master the first call succeeds and the
second returns DuplicateChunk with the state untouched. -/
theorem c3_witness :
    (add_chunk initMaster "/f" 0 0).1.2.2 = none
    ∧ (add_chunk (add_chunk initMaster "/f" 0 0).2 "/f" 0 1).1
        = (none, none, some .DuplicateChunk)
    ∧ (add_chunk (add_chunk initMaster "/f" 0 0).2 "/f" 0 1).2
        = (add_chunk initMaster "/f" 0 0).2 := by
  refine ⟨rfl, ?_, ?_⟩
  · exact (c3_add_chunk_duplicate initMaster "/f" 0 0 1 rfl).1
  · exact (c3_add_chunk_duplicate initMaster "/f" 0 0 1 rfl).2

/-- C1: for every mutating master operation (create, create_dir, delete,
add_chunk, unique_client_id) the oplog entry for the mutation is appended
iff the underlying namespace/chunk operation succeeded; on failure the
oplog is untouched.  The returned state already contains the appended
entry, so the append happens before the result is returned. -/
theorem c1_oplog_append_iff_success (s : MasterState) (path : String)
    (index now : Nat) :
    ((unique_client_id s).2.oplog
        = s.oplog ++ [⟨.GRANT_CLIENT_ID, .natP (s.client_id + 1)⟩])
    ∧ ((create s path).1.2 = none →
        (create s path).2.oplog = s.oplog ++ [⟨.CREATE_FILE, .strP path⟩])
    ∧ ((create s path).1.2 ≠ none → (create s path).2.oplog = s.oplog)
    ∧ ((create_dir s path).1.2 = none →
        (create_dir s path).2.oplog = s.oplog ++ [⟨.CREATE_DIR, .strP path⟩])
    ∧ ((create_dir s path).1.2 ≠ none → (create_dir s path).2.oplog = s.oplog)
    ∧ ((delete s path).1 = none →
        (delete s path).2.oplog = s.oplog ++ [⟨.DELETE_FILE, .strP path⟩])
    ∧ ((delete s path).1 ≠ none → (delete s path).2.oplog = s.oplog)
    ∧ ((add_chunk s path index now).1.2.2 = none →
        ∃ en, en.action = .ADD_CHUNK
          ∧ (add_chunk s path index now).2.oplog = s.oplog ++ [en])
    ∧ ((add_chunk s path index now).1.2.2 ≠ none →
        (add_chunk s path index now).2.oplog = s.oplog) := by
  refine ⟨rfl, ?_, ?_, ?_, ?_, ?_, ?_, ?_, ?_⟩
  · cases hr : (nsCreateNode s.ns path false).1.2 with
    | none => intro _; simp [create, hr]
    | some e => intro hc; simp [create, hr] at hc
  · cases hr : (nsCreateNode s.ns path false).1.2 with
    | none => intro hc; simp [create, hr] at hc
    | some e => intro _; simp [create, hr]
  · cases hr : (nsCreateNode s.ns path true).1.2 with
    | none => intro _; simp [create_dir, hr]
    | some e => intro hc; simp [create_dir, hr] at hc
  · cases hr : (nsCreateNode s.ns path true).1.2 with
    | none => intro hc; simp [create_dir, hr] at hc
    | some e => intro _; simp [create_dir, hr]
  · cases hr : (nsDelete s.ns path).1 with
    | none => intro _; simp [delete, hr]
    | some e => intro hc; simp [delete, hr] at hc
  · cases hr : (nsDelete s.ns path).1 with
    | none => intro hc; simp [delete, hr] at hc
    | some e => intro _; simp [delete, hr]
  · cases hf : s.cm.chunks.find? (fun e => e.1 == PathIndex.mk path index) with
    | some e => intro hc; simp [add_chunk, cmAddChunk, hf] at hc
    | none =>
        intro _
        exact ⟨⟨.ADD_CHUNK, .addChunkP path index s.cm.next_handle
          ((liveServers s.cm now).take REPLICATION_FACTOR) s.cm.next_handle⟩,
          rfl, by simp [add_chunk, cmAddChunk, hf]⟩
  · cases hf : s.cm.chunks.find? (fun e => e.1 == PathIndex.mk path index) with
    | some e => intro _; simp [add_chunk, cmAddChunk, hf]
    | none => intro hc; simp [add_chunk, cmAddChunk, hf] at hc

/-- Witness for C1: on a fresh master, creating a file succeeds and the
CREATE_FILE entry is already in the returned state's oplog. -/
theorem c1_witness :
    (create initMaster "/f").1.2 = none
    ∧ (create initMaster "/f").2.oplog
        = initMaster.oplog ++ [⟨.CREATE_FILE, .strP "/f"⟩] :=
  ⟨rfl, (c1_oplog_append_iff_success initMaster "/f" 0 0).2.1 rfl⟩

/-- C6 (amended): a `report_chunk` whose handle is unknown to the chunk
manager leaves the whole master state unchanged, but the lookup error is
returned to the caller as the pair (None, err) — it is not silently
swallowed. -/
theorem c6_unknown_handle_error_returned (s : MasterState) (server : String)
    (h idx l : Nat) (path : String) (e : Err)
    (he : cmGetPathIndexFromHandle s.cm h = (none, some e)) :
    (report_chunk s server h idx l path).1 = .ret (.pairRet none e)
    ∧ (report_chunk s server h idx l path).2 = s := by
  constructor <;> simp [report_chunk, he]

/-- Counterexample for C6 as stated: a report for the unknown handle 99 on
a fresh master does leave the state unchanged, but the NotFound error IS
propagated to the caller as the pair (None, err), contradicting the
claim's "not propagated to the caller as an error". -/
theorem c6_counterexample :
    (report_chunk initMaster "srv" 99 0 5 "/f").1
        = .ret (.pairRet none .NotFound)
    ∧ (report_chunk initMaster "srv" 99 0 5 "/f").2 = initMaster :=
  ⟨rfl, rfl⟩

/-- Witness for C6's amended theorem at a concrete unknown handle. -/
theorem c6_witness :
    cmGetPathIndexFromHandle initMaster.cm 5 = (none, some .NotFound)
    ∧ (report_chunk initMaster "x" 5 1 2 "/g").1 = .ret (.pairRet none .NotFound)
    ∧ (report_chunk initMaster "x" 5 1 2 "/g").2 = initMaster := by
  refine ⟨rfl, ?_, ?_⟩
  · exact (c6_unknown_handle_error_returned initMaster "x" 5 1 2 "/g" .NotFound rfl).1
  · exact (c6_unknown_handle_error_returned initMaster "x" 5 1 2 "/g" .NotFound rfl).2

/-- C10: `report_chunk` has inconsistent return shapes — a failing handle
lookup returns the two-tuple (None, err), while the success path returns
the bare single value None, and the two shapes are never equal, so a
uniform (value, error) destructuring cannot distinguish them. -/
theorem c10_report_chunk_return_shapes (s : MasterState) (server : String)
    (h idx l : Nat) (path : String) :
    (∀ e, cmGetPathIndexFromHandle s.cm h = (none, some e) →
        (report_chunk s server h idx l path).1 = .ret (.pairRet none e))
    ∧ (∀ pi L, cmGetPathIndexFromHandle s.cm h = (some pi, none) →
        pi.index = idx →
        (nsGetFileLength s.ns pi.path).1 = some L →
        (report_chunk s server h idx l path).1 = .ret .noneRet)
    ∧ (∀ v e, ReportRet.pairRet v e ≠ ReportRet.noneRet) := by
  refine ⟨?_, ?_, ?_⟩
  · intro e he; simp [report_chunk, he]
  · intro pi L hpi hidx hlen
    have hfull := nsGetFileLength_fst_some hlen
    simp only [report_chunk, hpi]
    rw [if_pos hidx]
    simp [hfull, apply_ite]
  · intro v e hne; cases hne

/-- Witness for C10: concrete failure and success calls showing the two
return shapes. -/
theorem c10_witness :
    cmGetPathIndexFromHandle initMaster.cm 99 = (none, some .NotFound)
    ∧ (report_chunk initMaster "srv" 99 3 5 "/f").1
        = .ret (.pairRet none .NotFound)
    ∧ (report_chunk (add_chunk (create initMaster "/f").2 "/f" 0 0).2
        "srv" 0 0 7 "/f").1 = .ret .noneRet := by
  refine ⟨rfl, ?_, ?_⟩
  · exact (c10_report_chunk_return_shapes initMaster "srv" 99 3 5 "/f").1
      .NotFound rfl
  · exact (c10_report_chunk_return_shapes
      (add_chunk (create initMaster "/f").2 "/f" 0 0).2 "srv" 0 0 7 "/f").2.1
      ⟨"/f", 0⟩ 0 rfl rfl rfl

/-- Counterexample for C5 as stated: from a reachable master state (a fresh
master after one successful add_chunk) a chunkserver report carrying a
mismatched chunk index for the known handle 0 reaches the assertion's
failure branch — the assertion is not unreachable. -/
theorem c5_counterexample :
    (report_chunk (add_chunk initMaster "/f" 0 0).2 "srv" 0 1 5 "/f").1
        = .assertError :=
  rfl

/-- C5 (amended): the assertion's failure branch is reachable exactly when
the handle resolves to a stored (path, index) pair whose stored index
differs from the reported chunk_index; since the reported index is an
arbitrary caller-supplied argument, such reports do reach it. -/
theorem c5_assert_reachable_iff_mismatch (s : MasterState) (server : String)
    (h idx l : Nat) (path : String) :
    (report_chunk s server h idx l path).1 = ReportOutcome.assertError
    ↔ ∃ pi, cmGetPathIndexFromHandle s.cm h = (some pi, none)
        ∧ pi.index ≠ idx := by
  rcases hpi : cmGetPathIndexFromHandle s.cm h with ⟨pi?, e?⟩
  cases e? with
  | some e => simp [report_chunk, hpi]
  | none =>
    cases pi? with
    | none => simp [report_chunk, hpi]
    | some pi =>
      by_cases hidx : pi.index = idx
      · constructor
        · intro hout
          exfalso
          revert hout
          simp only [report_chunk, hpi]
          rw [if_pos hidx]
          split
          · simp
          · simp [apply_ite]
        · rintro ⟨pi2, hpi2, hne⟩
          have : pi = pi2 := by
            have := congrArg Prod.fst hpi2
            simpa using this
          exact absurd hidx (this ▸ hne)
      · simp [report_chunk, hpi, hidx]

/-- A first-component-some result of `nsGetFileLength` comes from a
resolved node of that length. -/
lemma nsGetFileLength_resolve {ns : NsState} {p : String} {L : Nat}
    (hl : (nsGetFileLength ns p).1 = some L) :
    ∃ n, nsResolve ns (segsOf p) = some n ∧ n.len = L := by
  cases hres : nsResolve ns (segsOf p) with
  | none => simp [nsGetFileLength, hres] at hl
  | some n =>
    simp [nsGetFileLength, hres] at hl
    exact ⟨n, rfl, hl⟩

/-- Applying a key- and tombstone-preserving, length-nondecreasing update
to every namespace entry can only increase the length that resolution
sees. -/
lemma nsResolve_map_mono (f : List String × NsNode → List String × NsNode)
    (hf1 : ∀ e, (f e).1 = e.1)
    (hf2 : ∀ e, (f e).2.tombstone = e.2.tombstone)
    (hf3 : ∀ e, e.2.len ≤ (f e).2.len)
    (ns : NsState) (key : List String) (n : NsNode)
    (hres : nsResolve ns key = some n) :
    ∃ m, nsResolve (ns.map f) key = some m ∧ n.len ≤ m.len := by
  unfold nsResolve at hres ⊢
  rw [List.find?_map]
  have hpf : (fun e : List String × NsNode => e.1 == key && !e.2.tombstone) ∘ f
      = fun e : List String × NsNode => e.1 == key && !e.2.tombstone := by
    funext e
    simp [Function.comp, hf1, hf2]
  rw [hpf]
  cases hfind : ns.find? (fun e => e.1 == key && !e.2.tombstone) with
  | none => rw [hfind] at hres; simp at hres
  | some e =>
    rw [hfind] at hres
    simp at hres
    refine ⟨(f e).2, by simp, ?_⟩
    rw [← hres]
    exact hf3 e

/-- `nsSetFileLength` never decreases any path's resolved length. -/
lemma nsSetFileLength_mono (ns : NsState) (q : String) (v : Nat)
    (p : String) (L : Nat)
    (hl : (nsGetFileLength ns p).1 = some L) :
    ∃ M, (nsGetFileLength (nsSetFileLength ns q v).2 p).1 = some M ∧ L ≤ M := by
  obtain ⟨n, hres, hlen⟩ := nsGetFileLength_resolve hl
  cases hresq : nsResolve ns (segsOf q) with
  | none =>
    refine ⟨L, ?_, le_refl L⟩
    simp only [nsSetFileLength, hresq]
    exact hl
  | some n0 =>
    have h1 : ∀ e, (setLenFun (segsOf q) v e).1 = e.1 := by
      intro e; unfold setLenFun; split <;> rfl
    have h2 : ∀ e, (setLenFun (segsOf q) v e).2.tombstone = e.2.tombstone := by
      intro e; unfold setLenFun; split <;> rfl
    have h3 : ∀ e, e.2.len ≤ (setLenFun (segsOf q) v e).2.len := by
      intro e; unfold setLenFun; split
      · exact Nat.le_max_left _ _
      · exact le_refl _
    obtain ⟨m, hm, hle⟩ := nsResolve_map_mono (setLenFun (segsOf q) v)
      h1 h2 h3 ns (segsOf p) n hres
    refine ⟨m.len, ?_, hlen ▸ hle⟩
    simp only [nsSetFileLength, hresq]
    simp [nsGetFileLength, hm]

/-- `report_chunk` either leaves the namespace untouched or applies one
`nsSetFileLength` to it. -/
lemma report_chunk_ns_cases (s : MasterState) (server : String)
    (ch idx l : Nat) (path : String) :
    (report_chunk s server ch idx l path).2.ns = s.ns
    ∨ ∃ q v, (report_chunk s server ch idx l path).2.ns
        = (nsSetFileLength s.ns q v).2 := by
  simp only [report_chunk]
  split
  · exact Or.inl rfl
  · split
    · split
      · exact Or.inl rfl
      · split
        · exact Or.inr ⟨_, _, rfl⟩
        · exact Or.inl rfl
    · exact Or.inl rfl
  · exact Or.inl rfl

/-- C2: the recorded file length is monotone under `report_chunk` — for
every path the recorded length never decreases, and when the newly
computed length `CHUNK_SIZE * index + length` does not exceed the current
recorded length the namespace is left completely unchanged (smaller or
duplicate reports are ignored). -/
theorem c2_recorded_length_monotone (s : MasterState) (server : String)
    (h idx l : Nat) (path p : String) :
    (∀ L, recordedLen s p = some L →
        ∃ M, recordedLen (report_chunk s server h idx l path).2 p = some M
          ∧ L ≤ M)
    ∧ (∀ pi L, cmGetPathIndexFromHandle s.cm h = (some pi, none) →
        pi.index = idx →
        (nsGetFileLength s.ns pi.path).1 = some L →
        CHUNK_SIZE * pi.index + l ≤ L →
        (report_chunk s server h idx l path).2.ns = s.ns) := by
  constructor
  · intro L hL
    rcases report_chunk_ns_cases s server h idx l path with hcase | ⟨q, v, hcase⟩
    · refine ⟨L, ?_, le_refl L⟩
      unfold recordedLen
      rw [hcase]
      exact hL
    · obtain ⟨M, hM, hle⟩ := nsSetFileLength_mono s.ns q v p L hL
      refine ⟨M, ?_, hle⟩
      unfold recordedLen
      rw [hcase]
      exact hM
  · intro pi L hpi hidx hlen hle
    have hfull := nsGetFileLength_fst_some hlen
    have hnl : ¬ (L < CHUNK_SIZE * pi.index + l) := by omega
    simp only [report_chunk, hpi]
    rw [if_pos hidx]
    simp [hfull, hnl]

/-- Witness for C2: on a master holding the file "/f" of length 0, a
report of length 0 keeps the recorded length defined and the namespace
unchanged. -/
theorem c2_witness :
    recordedLen (add_chunk (create initMaster "/f").2 "/f" 0 0).2 "/f" = some 0
    ∧ (∃ M, recordedLen (report_chunk
        (add_chunk (create initMaster "/f").2 "/f" 0 0).2
        "srv" 0 0 0 "/f").2 "/f" = some M ∧ 0 ≤ M)
    ∧ cmGetPathIndexFromHandle
        (add_chunk (create initMaster "/f").2 "/f" 0 0).2.cm 0
        = (some ⟨"/f", 0⟩, none)
    ∧ (report_chunk (add_chunk (create initMaster "/f").2 "/f" 0 0).2
        "srv" 0 0 0 "/f").2.ns
        = (add_chunk (create initMaster "/f").2 "/f" 0 0).2.ns := by
  refine ⟨rfl, ?_, rfl, ?_⟩
  · exact (c2_recorded_length_monotone
      (add_chunk (create initMaster "/f").2 "/f" 0 0).2
      "srv" 0 0 0 "/f" "/f").1 0 rfl
  · exact (c2_recorded_length_monotone
      (add_chunk (create initMaster "/f").2 "/f" 0 0).2
      "srv" 0 0 0 "/f" "/f").2 ⟨"/f", 0⟩ 0 rfl rfl rfl (by decide)

/-- Counterexample for C7 as stated: after `add_chunk` on a path that was
never created in the namespace, `delete` of that path fails with NotFound
— yet the deferred chunk-deletion queue has changed from [] to [0],
because `update_deletechunk_list` runs before the namespace check. -/
theorem c7_counterexample :
    (delete (add_chunk initMaster "/f" 0 0).2 "/f").1 = some .NotFound
    ∧ (add_chunk initMaster "/f" 0 0).2.cm.delete_queue = []
    ∧ (delete (add_chunk initMaster "/f" 0 0).2 "/f").2.cm.delete_queue = [0] :=
  ⟨rfl, rfl, rfl⟩

/-- C7 (amended): when no node resolves at the path, `delete` fails with
NotFound, appends no oplog entry and leaves the namespace tree unchanged,
but the deferred chunk-deletion queue is still extended by the handles the
chunk manager has for the path (it is run before the namespace check); on
success the node and its whole subtree are tombstoned in place, with no
entry physically removed. -/
theorem c7_delete_semantics (s : MasterState) (path : String) :
    (nsResolve s.ns (segsOf path) = none →
        (delete s path).1 = some .NotFound
        ∧ (delete s path).2.oplog = s.oplog
        ∧ (delete s path).2.ns = s.ns
        ∧ (delete s path).2.cm.delete_queue
            = s.cm.delete_queue
              ++ (s.cm.chunks.filter (fun e => e.1.path == path)).map Prod.snd)
    ∧ (∀ n, nsResolve s.ns (segsOf path) = some n →
        (delete s path).1 = none
        ∧ (delete s path).2.ns.length = s.ns.length
        ∧ ∀ e ∈ s.ns, (segsOf path).isPrefixOf e.1 = true →
            (e.1, { e.2 with tombstone := true }) ∈ (delete s path).2.ns) := by
  constructor
  · intro hres
    have hd : nsDelete s.ns path = (some .NotFound, s.ns) := by
      simp [nsDelete, hres]
    refine ⟨?_, ?_, ?_, ?_⟩ <;> simp [delete, hd, cmUpdateDeleteChunkList]
  · intro n hres
    have hd : nsDelete s.ns path
        = (none, s.ns.map (fun e =>
            if (segsOf path).isPrefixOf e.1 then
              (e.1, { e.2 with tombstone := true })
            else e)) := by
      simp [nsDelete, hres]
    refine ⟨?_, ?_, ?_⟩
    · simp [delete, hd]
    · simp [delete, hd]
    · intro e he hpre
      have hns : (delete s path).2.ns = s.ns.map (fun e =>
          if (segsOf path).isPrefixOf e.1 then
            (e.1, { e.2 with tombstone := true })
          else e) := by
        simp [delete, hd]
      rw [hns]
      refine List.mem_map.mpr ⟨e, he, ?_⟩
      simp [hpre]

/-- Witness for C7's amended theorem: the NotFound branch on a fresh
master, and the success branch after creating the file. -/
theorem c7_witness :
    nsResolve initMaster.ns (segsOf "/f") = none
    ∧ (delete initMaster "/f").1 = some .NotFound
    ∧ (delete initMaster "/f").2.oplog = initMaster.oplog
    ∧ (delete initMaster "/f").2.ns = initMaster.ns
    ∧ nsResolve (create initMaster "/f").2.ns (segsOf "/f")
        = some ⟨false, 0, false⟩
    ∧ (delete (create initMaster "/f").2 "/f").1 = none := by
  have h1 := (c7_delete_semantics initMaster "/f").1 rfl
  have h2 := (c7_delete_semantics (create initMaster "/f").2 "/f").2
    ⟨false, 0, false⟩ rfl
  exact ⟨rfl, h1.1, h1.2.1, h1.2.2.1, rfl, h2.1⟩

/-- Inserting a lease for `h` in front of the leases with key `h` filtered
out keeps the lease keys nodup. -/
lemma lease_insert_nodup (leases : List (Nat × Lease)) (h : Nat) (L : Lease)
    (hn : (leases.map Prod.fst).Nodup) :
    (((h, L) :: leases.filter (fun e => e.1 != h)).map Prod.fst).Nodup := by
  rw [List.map_cons, List.nodup_cons]
  constructor
  · intro hmem
    rcases List.mem_map.mp hmem with ⟨e, hme, hfst⟩
    have hpe := List.of_mem_filter hme
    rw [hfst] at hpe
    simp at hpe
  · exact List.Nodup.sublist (List.Sublist.map Prod.fst (List.filter_sublist _)) hn

/-- A successful election leaves the chunk map unchanged, records exactly
the returned lease for the handle, and preserves lease-key nodup. -/
lemma cmElect_success (cm : CmState) (h now : Nat) (L : Lease)
    (hs : (cmElect cm h now).1 = (some L, none)) :
    (cmElect cm h now).2.chunks = cm.chunks
    ∧ (cmElect cm h now).2.leases.find? (fun e => e.1 == h) = some (h, L)
    ∧ ((cm.leases.map Prod.fst).Nodup →
        ((cmElect cm h now).2.leases.map Prod.fst).Nodup) := by
  cases hc : (confirmedLocations cm h).filter
      (fun a => (liveServers cm now).contains a) with
  | nil =>
    simp only [cmElect, hc] at hs
    simp at hs
  | cons c rest =>
    have heq : cmElect cm h now
        = ((some ⟨c, now + LEASE_DURATION⟩, none),
            { cm with leases := (h, (⟨c, now + LEASE_DURATION⟩ : Lease)) ::
                cm.leases.filter (fun e => e.1 != h) }) := by
      simp only [cmElect, hc]
    rw [heq] at hs
    have hL : L = ⟨c, now + LEASE_DURATION⟩ := by
      have hfst := congrArg Prod.fst hs
      simp at hfst
      exact hfst.symm
    subst hL
    rw [heq]
    refine ⟨rfl, ?_, ?_⟩
    · exact List.find?_cons_of_pos _ (by simp)
    · intro hn
      exact lease_insert_nodup cm.leases h _ hn

/-- A successful `cmFindLeaseHolder` implies the handle is known, the
chunk map is unchanged, the returned lease is the one recorded for the
handle in the result state, and lease-key nodup is preserved. -/
lemma cmFindLeaseHolder_success (cm : CmState) (h now : Nat) (L : Lease)
    (hs : (cmFindLeaseHolder cm h now).1 = (some L, none)) :
    cmKnows cm h = true
    ∧ (cmFindLeaseHolder cm h now).2.chunks = cm.chunks
    ∧ (cmFindLeaseHolder cm h now).2.leases.find? (fun e => e.1 == h)
        = some (h, L)
    ∧ ((cm.leases.map Prod.fst).Nodup →
        ((cmFindLeaseHolder cm h now).2.leases.map Prod.fst).Nodup) := by
  by_cases hk : cmKnows cm h
  · cases hfind : cm.leases.find? (fun e => e.1 == h) with
    | some e =>
      by_cases hexp : now < e.2.expiration
      · have heq : cmFindLeaseHolder cm h now = ((some e.2, none), cm) := by
          simp [cmFindLeaseHolder, hk, hfind, hexp]
        rw [heq] at hs
        simp at hs
        have he1 : e.1 = h := by
          have := List.find?_some hfind
          simpa using this
        refine ⟨hk, by rw [heq], ?_, by rw [heq]; exact fun hn => hn⟩
        rw [heq]
        rw [hfind, ← hs, ← he1]
      · have heq : cmFindLeaseHolder cm h now = cmElect cm h now := by
          simp [cmFindLeaseHolder, hk, hfind, hexp]
        rw [heq] at hs ⊢
        obtain ⟨ha, hb, hc⟩ := cmElect_success cm h now L hs
        exact ⟨hk, ha, hb, hc⟩
    | none =>
      have heq : cmFindLeaseHolder cm h now = cmElect cm h now := by
        simp [cmFindLeaseHolder, hk, hfind]
      rw [heq] at hs ⊢
      obtain ⟨ha, hb, hc⟩ := cmElect_success cm h now L hs
      exact ⟨hk, ha, hb, hc⟩
  · simp [cmFindLeaseHolder, hk] at hs

/-- If the chunk manager knows the handle and has a non-expired lease for
it, `cmFindLeaseHolder` returns that lease and changes nothing. -/
lemma cmFindLeaseHolder_cached (cm : CmState) (h now : Nat) (L : Lease)
    (hk : cmKnows cm h = true)
    (hfind : cm.leases.find? (fun e => e.1 == h) = some (h, L))
    (hexp : now < L.expiration) :
    cmFindLeaseHolder cm h now = ((some L, none), cm) := by
  simp [cmFindLeaseHolder, hk, hfind, hexp]

/-- A successful master `find_lease_holder` comes from a successful chunk
manager call returning exactly that lease, and the state's chunk manager
is the chunk manager call's result state. -/
lemma find_lease_holder_success (s : MasterState) (h now : Nat)
    (p : String) (exp : Nat)
    (h1 : (find_lease_holder s h now).1 = (some p, some exp, none)) :
    (cmFindLeaseHolder s.cm h now).1 = (some ⟨p, exp⟩, none)
    ∧ (find_lease_holder s h now).2.cm = (cmFindLeaseHolder s.cm h now).2 := by
  rcases hr : (cmFindLeaseHolder s.cm h now).1 with ⟨L?, e?⟩
  cases e? with
  | some e => simp [find_lease_holder, hr] at h1
  | none =>
    cases L? with
    | none => simp [find_lease_holder, hr] at h1
    | some L =>
      simp [find_lease_holder, hr] at h1
      obtain ⟨hp, hexp⟩ := h1
      have hL : L = ⟨p, exp⟩ := by
        cases L
        simp_all
      exact ⟨by rw [hL], by simp [find_lease_holder, hr]⟩

/-- When the chunk manager call returns a lease, the master wrapper
returns its primary and expiration and installs the result chunk-manager
state. -/
lemma find_lease_holder_of_cm (s : MasterState) (h now : Nat) (L : Lease)
    (cm' : CmState)
    (hc : cmFindLeaseHolder s.cm h now = ((some L, none), cm')) :
    find_lease_holder s h now
      = ((some L.primary, some L.expiration, none), { s with cm := cm' }) := by
  simp [find_lease_holder, hc]

/-- C4: at most one lease per handle (nodup lease keys are preserved), and
a second `find_lease_holder` on the same handle before the returned
expiration returns the identical primary and expiration, with the master
state — the existing non-expired lease included — completely unchanged:
the lease is returned as is, not re-elected. -/
theorem c4_lease_unique_and_stable (s : MasterState) (h now1 now2 : Nat)
    (p : String) (exp : Nat)
    (h1 : (find_lease_holder s h now1).1 = (some p, some exp, none))
    (h2 : now2 < exp) :
    (find_lease_holder (find_lease_holder s h now1).2 h now2).1
        = (some p, some exp, none)
    ∧ (find_lease_holder (find_lease_holder s h now1).2 h now2).2
        = (find_lease_holder s h now1).2
    ∧ ((s.cm.leases.map Prod.fst).Nodup →
        ((find_lease_holder s h now1).2.cm.leases.map Prod.fst).Nodup) := by
  obtain ⟨hcm, hstate⟩ := find_lease_holder_success s h now1 p exp h1
  obtain ⟨hk, hchunks, hfind, hnodup⟩ :=
    cmFindLeaseHolder_success s.cm h now1 ⟨p, exp⟩ hcm
  have hk1 : cmKnows (find_lease_holder s h now1).2.cm h = true := by
    unfold cmKnows at hk ⊢
    rw [hstate, hchunks]
    exact hk
  have hfind1 : (find_lease_holder s h now1).2.cm.leases.find?
      (fun e => e.1 == h) = some (h, ⟨p, exp⟩) := by
    rw [hstate]
    exact hfind
  have hc := cmFindLeaseHolder_cached (find_lease_holder s h now1).2.cm
    h now2 ⟨p, exp⟩ hk1 hfind1 h2
  have hfl := find_lease_holder_of_cm (find_lease_holder s h now1).2 h now2
    ⟨p, exp⟩ (find_lease_holder s h now1).2.cm hc
  refine ⟨?_, ?_, ?_⟩
  · rw [hfl]
  · rw [hfl]
  · intro hn
    rw [hstate]
    exact hnodup hn

/-- Witness for C4: a concrete master with one chunk, one live registered
chunkserver that reported it; the first lease request at time 5 grants
("srv", 65), and a second request at time 10 returns it unchanged. -/
theorem c4_witness :
    (find_lease_holder
        (notify_master (add_chunk initMaster "/f" 0 0).2 "srv" [0] 0) 0 5).1
        = (some "srv", some 65, none)
    ∧ (find_lease_holder (find_lease_holder
        (notify_master (add_chunk initMaster "/f" 0 0).2 "srv" [0] 0) 0 5).2
        0 10).1 = (some "srv", some 65, none)
    ∧ (find_lease_holder (find_lease_holder
        (notify_master (add_chunk initMaster "/f" 0 0).2 "srv" [0] 0) 0 5).2
        0 10).2
      = (find_lease_holder
        (notify_master (add_chunk initMaster "/f" 0 0).2 "srv" [0] 0) 0 5).2 := by
  have hc := c4_lease_unique_and_stable
    (notify_master (add_chunk initMaster "/f" 0 0).2 "srv" [0] 0) 0 5 10 "srv" 65
    (by decide) (by decide)
  exact ⟨by decide, hc.1, hc.2.1⟩

end GfsMaster
